import Mathlib

/-!
Verification of the core orchestration and configuration logic of the
web-codegen-scorer repository, developed against a shallow embedding of
its TypeScript sources. Each embedded definition cites the source file
and lines it was translated from.
-/

/-- Categories that can be assigned to a rating
(enum `RatingCategory`, src/runner/ratings/rating-types.ts lines 29-33). -/
inductive RatingCategory where
  | highImpact
  | mediumImpact
  | lowImpact
deriving DecidableEq

/-- String value of the `RatingCategory` enum member, as produced by
template-literal interpolation of the enum value. -/
def RatingCategory.str : RatingCategory → String
  | .highImpact => "high-impact"
  | .mediumImpact => "medium-impact"
  | .lowImpact => "low-impact"

/-- Per-category configuration (interface `CategoryConfig`,
src/runner/configuration/environment.ts lines 251-254). The source type of
`maxPoints` is a JavaScript number; the configured defaults are 60/30/10
and overrides are whole point budgets, modelled as naturals. -/
structure CategoryConfig where
  name : String
  maxPoints : Nat
deriving DecidableEq

/-- The fields of a rating that take part in the rating hash
(`ratingSchemaCommonFields`, src/runner/ratings/rating-types.ts lines
40-47). `scoreReduction` is a string of the shape "<number>%";
`groupingLabels` is optional. -/
structure Rating where
  id : String
  category : RatingCategory
  scoreReduction : String
  groupingLabels : Option (List String)
deriving DecidableEq

/-- Lexicographic comparison of character lists, modelling the code-unit
comparison JavaScript uses for strings. -/
def charListLE : List Char → List Char → Bool
  | [], _ => true
  | _ :: _, [] => false
  | a :: as, b :: bs =>
    if a < b then true
    else if b < a then false
    else charListLE as bs

/-- Lexicographic string comparison (JavaScript `a < b` / default sort
comparator on strings). -/
def strLE (a b : String) : Bool := charListLE a.data b.data

/-- Sorting of a list of strings into ascending order, modelling JavaScript
`parts.sort()` (default comparator: code-unit ascending). Any JS-conformant
sort agrees with this on string keys, since elements that compare equal as
sort keys are equal as elements. -/
def sortStrings (l : List String) : List String :=
  l.insertionSort (fun a b => strLE a b)

/-- Totality of the lexicographic comparison. -/
theorem charListLE_total : ∀ x y, charListLE x y = true ∨ charListLE y x = true
  | [], _ => Or.inl rfl
  | _ :: _, [] => Or.inr rfl
  | a :: as, b :: bs => by
    rcases lt_trichotomy a b with h | h | h
    · exact Or.inl (by simp [charListLE, h])
    · subst h
      rcases charListLE_total as bs with h' | h' <;>
        simp [charListLE, lt_irrefl, h']
    · exact Or.inr (by simp [charListLE, h])

/-- Transitivity of the lexicographic comparison. -/
theorem charListLE_trans : ∀ x y z, charListLE x y = true → charListLE y z = true →
    charListLE x z = true
  | [], _, _ => fun _ _ => rfl
  | a :: as, [], _ => fun h _ => by simp [charListLE] at h
  | a :: as, b :: bs, [] => fun _ h => by simp [charListLE] at h
  | a :: as, b :: bs, c :: cs => by
    intro hxy hyz
    simp only [charListLE] at hxy hyz ⊢
    rcases lt_trichotomy a b with hab | hab | hab
    · rcases lt_trichotomy b c with hbc | hbc | hbc
      · rw [if_pos (lt_trans hab hbc)]
      · subst hbc; rw [if_pos hab]
      · rw [if_neg (lt_asymm hbc), if_pos hbc] at hyz
        exact Bool.noConfusion hyz
    · subst hab
      rcases lt_trichotomy a c with hac | hac | hac
      · rw [if_pos hac]
      · subst hac
        rw [if_neg (lt_irrefl a), if_neg (lt_irrefl a)] at hxy hyz ⊢
        exact charListLE_trans as bs cs hxy hyz
      · rw [if_neg (lt_asymm hac), if_pos hac] at hyz
        exact Bool.noConfusion hyz
    · rw [if_neg (lt_asymm hab), if_pos hab] at hxy
      exact Bool.noConfusion hxy

/-- Antisymmetry of the lexicographic comparison. -/
theorem charListLE_antisymm : ∀ x y, charListLE x y = true → charListLE y x = true → x = y
  | [], [] => fun _ _ => rfl
  | [], _ :: _ => fun _ h => by simp [charListLE] at h
  | _ :: _, [] => fun h _ => by simp [charListLE] at h
  | a :: as, b :: bs => by
    intro hxy hyx
    simp only [charListLE] at hxy hyx
    rcases lt_trichotomy a b with h | h | h
    · rw [if_neg (lt_asymm h), if_pos h] at hyx
      exact Bool.noConfusion hyx
    · subst h
      rw [if_neg (lt_irrefl a), if_neg (lt_irrefl a)] at hxy hyx
      exact congrArg (a :: ·) (charListLE_antisymm as bs hxy hyx)
    · rw [if_neg (lt_asymm h), if_pos h] at hxy
      exact Bool.noConfusion hxy

/-- Totality of `strLE`. -/
theorem strLE_total (a b : String) : strLE a b = true ∨ strLE b a = true :=
  charListLE_total a.data b.data

/-- Transitivity of `strLE`. -/
theorem strLE_trans {a b c : String} (h1 : strLE a b = true) (h2 : strLE b c = true) :
    strLE a c = true :=
  charListLE_trans a.data b.data c.data h1 h2

/-- Antisymmetry of `strLE`. -/
theorem strLE_antisymm {a b : String} (h1 : strLE a b = true) (h2 : strLE b a = true) :
    a = b := by
  cases a; cases b
  exact congrArg String.mk (charListLE_antisymm _ _ h1 h2)

/-- Canonical string built for one rating inside `Environment.getRatingHash`
(src/runner/configuration/environment.ts lines 726-731):

  template `${rating.category};${categories[rating.category]?.maxPoints};`
  followed by `${rating.id};${rating.scoreReduction};${rating.groupingLabels || [].sort().join(',')}`

Note the JavaScript operator precedence in the last piece: `.sort().join(',')`
binds to the empty array literal `[]`, not to `rating.groupingLabels`. An
array is always truthy, so when `groupingLabels` is present the template
interpolates the array itself, which stringifies as the labels joined by ","
in their configured, UNSORTED order; when `groupingLabels` is absent the
`||` fallback is `[].sort().join(',')`, the empty string. -/
def canonicalRatingPart (categories : RatingCategory → CategoryConfig)
    (rating : Rating) : String :=
  rating.category.str ++ ";" ++ toString (categories rating.category).maxPoints ++ ";" ++
    rating.id ++ ";" ++ rating.scoreReduction ++ ";" ++
    (match rating.groupingLabels with
      | some labels => String.intercalate "," labels
      | none => "")

/-- Hypothetical canonical rating string following the specification text
("category, max-points-for-category, rating id, score-reduction, sorted
grouping labels"): identical to `canonicalRatingPart` except that the
grouping labels are sorted before being joined. Used only to compare the
code's behaviour with the specified one. -/
def specCanonicalRatingPart (categories : RatingCategory → CategoryConfig)
    (rating : Rating) : String :=
  rating.category.str ++ ";" ++ toString (categories rating.category).maxPoints ++ ";" ++
    rating.id ++ ";" ++ rating.scoreReduction ++ ";" ++
    (match rating.groupingLabels with
      | some labels => String.intercalate "," (sortStrings labels)
      | none => "")

/-- Input string fed to the SHA-256 hash by `Environment.getRatingHash`:
the canonical parts, sorted, joined with "|"
(src/runner/configuration/environment.ts line 733). -/
def ratingHashInput (ratings : List Rating)
    (categories : RatingCategory → CategoryConfig) : String :=
  String.intercalate "|" (sortStrings (ratings.map (canonicalRatingPart categories)))

/-- Models `Environment.getRatingHash`
(src/runner/configuration/environment.ts lines 720-734). The parameter
`sha256` abstracts the external utility `getSha256Hash`
(src/runner/utils/hashing.ts, not among the analysed sources). -/
def getRatingHash (sha256 : String → String) (ratings : List Rating)
    (categories : RatingCategory → CategoryConfig) : String :=
  sha256 (ratingHashInput ratings categories)

/-- Models `Environment.validateRatingHash`
(src/runner/configuration/environment.ts lines 736-747). Construction
throws a `UserFacingError` (modelled as `Except.error`) when
`expectedRatingHash` is truthy (present and non-empty, per the JavaScript
`config.expectedRatingHash && ...` guard) and differs from the computed
hash. -/
def validateRatingHash (displayName : String) (currentHash : String)
    (expectedRatingHash : Option String) : Except String Unit :=
  match expectedRatingHash with
  | none => .ok ()
  | some expected =>
    if expected ≠ "" ∧ expected ≠ currentHash then
      .error ("Rating hash for environment \"" ++ displayName ++
        "\" does not match the expectation." ++
        "\nExpected: " ++ expected ++
        "\nActual: " ++ currentHash ++
        "\nEither update the `expectedRatingHash` field in the config or revert the ratings back to their previous configuration")
    else .ok ()

/-- Models the rating-hash slice of the `Environment` constructor
(src/runner/configuration/environment.ts lines 341-347): the hash is
computed from the resolved ratings and categories, then validated against
`expectedRatingHash`; on success the constructed environment carries the
hash. Rating/category override resolution happens before this slice and is
taken as already applied to `ratings` and `categories`. -/
def environmentRatingHashCheck (sha256 : String → String) (displayName : String)
    (ratings : List Rating) (categories : RatingCategory → CategoryConfig)
    (expectedRatingHash : Option String) : Except String String :=
  let hash := getRatingHash sha256 ratings categories
  (validateRatingHash displayName hash expectedRatingHash).map (fun _ => hash)

instance : IsTotal String (fun a b => strLE a b = true) := ⟨strLE_total⟩

instance : IsTrans String (fun a b => strLE a b = true) := ⟨fun _ _ _ => strLE_trans⟩

instance : IsAntisymm String (fun a b => strLE a b = true) := ⟨fun _ _ => strLE_antisymm⟩

/-- Sorting strings is invariant under permutation of the input. -/
theorem sortStrings_perm_eq {l l' : List String} (h : l.Perm l') :
    sortStrings l = sortStrings l' :=
  List.eq_of_perm_of_sorted (r := fun a b : String => strLE a b = true)
    ((List.perm_insertionSort _ l).trans (h.trans (List.perm_insertionSort _ l').symm))
    (List.sorted_insertionSort _ l) (List.sorted_insertionSort _ l')

/-- Claim C3: for every rating set and every permutation of its elements,
the RatingHash computed at Environment construction is identical — the
hash is invariant under any reordering of the ratings list. -/
theorem ratingHash_perm_invariant (sha256 : String → String)
    (ratings ratings' : List Rating) (categories : RatingCategory → CategoryConfig)
    (h : ratings.Perm ratings') :
    getRatingHash sha256 ratings categories = getRatingHash sha256 ratings' categories := by
  unfold getRatingHash ratingHashInput
  rw [sortStrings_perm_eq (h.map (canonicalRatingPart categories))]

/-- Concrete instantiation of claim C3's theorem: swapping two ratings
leaves the hash unchanged. -/
theorem ratingHash_perm_invariant_witness :
    getRatingHash (fun s => s)
      [⟨"a11y", .highImpact, "10%", some ["x"]⟩, ⟨"perf", .lowImpact, "5%", none⟩]
      (fun _ => ⟨"High Impact", 60⟩)
    = getRatingHash (fun s => s)
      [⟨"perf", .lowImpact, "5%", none⟩, ⟨"a11y", .highImpact, "10%", some ["x"]⟩]
      (fun _ => ⟨"High Impact", 60⟩) :=
  ratingHash_perm_invariant (fun s => s) _ _ (fun _ => ⟨"High Impact", 60⟩)
    (List.Perm.swap _ _ [])

/-- Default category configuration used in the claim C4 evaluation. -/
def defaultCategories : RatingCategory → CategoryConfig
  | .highImpact => ⟨"High Impact", 60⟩
  | .mediumImpact => ⟨"Medium Impact", 30⟩
  | .lowImpact => ⟨"Low Impact", 10⟩

/-- Claim C4 (divergence of code from claim): the canonical string entering
the hash keeps the grouping labels in their configured order rather than
sorting them. Two ratings differing only in the order of their grouping
labels produce different canonical parts and different hash inputs, while
the specification's sorted-labels canonical string would make them equal.
This is the JavaScript precedence slip `groupingLabels || [].sort().join(',')`
in src/runner/configuration/environment.ts line 729, whose dead `.sort()`
shows sorting was intended. -/
theorem ratingHash_labels_not_sorted :
    canonicalRatingPart defaultCategories ⟨"r", .highImpact, "10%", some ["b", "a"]⟩ ≠
      canonicalRatingPart defaultCategories ⟨"r", .highImpact, "10%", some ["a", "b"]⟩ ∧
    specCanonicalRatingPart defaultCategories ⟨"r", .highImpact, "10%", some ["b", "a"]⟩ =
      specCanonicalRatingPart defaultCategories ⟨"r", .highImpact, "10%", some ["a", "b"]⟩ ∧
    ratingHashInput [⟨"r", .highImpact, "10%", some ["b", "a"]⟩] defaultCategories ≠
      ratingHashInput [⟨"r", .highImpact, "10%", some ["a", "b"]⟩] defaultCategories := by
  refine ⟨by decide, by decide, by decide⟩

/-- Associativity of string concatenation, used to restructure error
messages when exhibiting their parts. -/
theorem stringAppend_assoc (a b c : String) : a ++ b ++ c = a ++ (b ++ c) := by
  cases a with
  | mk da =>
    cases b with
    | mk db =>
      cases c with
      | mk dc => exact congrArg String.mk (List.append_assoc da db dc)

/-- Claim C5 counterexample: the claim, as stated, fails when the declared
`expectedRatingHash` is the empty string. The JavaScript guard
`config.expectedRatingHash && config.expectedRatingHash !== currentHash`
treats the empty string as falsy, so a declared-but-empty expected hash is
never validated: here the configuration declares `expectedRatingHash` (as
""), the computed hash is "abc123" which differs from it, yet construction
succeeds instead of failing. -/
theorem ratingHash_empty_expected_not_validated :
    getRatingHash (fun _ => "abc123") [] defaultCategories = "abc123" ∧
    ("" : String) ≠ "abc123" ∧
    environmentRatingHashCheck (fun _ => "abc123") "My Env" [] defaultCategories
      (some "") = .ok "abc123" :=
  ⟨rfl, by decide, rfl⟩

/-- Claim C5 (amended): if the environment configuration declares a
non-empty `expectedRatingHash` and it does not equal the computed
RatingHash, Environment construction fails with a user-facing error whose
message names both the expected and the actual hash value. -/
theorem ratingHash_mismatch_fails (sha256 : String → String) (displayName : String)
    (ratings : List Rating) (categories : RatingCategory → CategoryConfig)
    (expected : String) (hne : expected ≠ "")
    (hmismatch : expected ≠ getRatingHash sha256 ratings categories) :
    ∃ msg,
      environmentRatingHashCheck sha256 displayName ratings categories
        (some expected) = .error msg ∧
      ∃ s1 s2 s3, msg = s1 ++ expected ++ s2 ++
        getRatingHash sha256 ratings categories ++ s3 := by
  refine ⟨"Rating hash for environment \"" ++ displayName ++
      "\" does not match the expectation." ++ "\nExpected: " ++ expected ++
      "\nActual: " ++ getRatingHash sha256 ratings categories ++
      "\nEither update the `expectedRatingHash` field in the config or revert the ratings back to their previous configuration",
    ?_,
    "Rating hash for environment \"" ++ displayName ++
      "\" does not match the expectation." ++ "\nExpected: ",
    "\nActual: ",
    "\nEither update the `expectedRatingHash` field in the config or revert the ratings back to their previous configuration",
    rfl⟩
  simp only [environmentRatingHashCheck, validateRatingHash]
  rw [if_pos ⟨hne, hmismatch⟩]
  rfl

/-- Concrete instantiation of claim C5's amended theorem. -/
theorem ratingHash_mismatch_fails_witness :
    ("deadbeef" : String) ≠ "" ∧
    ("deadbeef" : String) ≠ getRatingHash (fun _ => "abc123") [] defaultCategories ∧
    ∃ msg,
      environmentRatingHashCheck (fun _ => "abc123") "My Env" [] defaultCategories
        (some "deadbeef") = .error msg ∧
      ∃ s1 s2 s3, msg = s1 ++ "deadbeef" ++ s2 ++
        getRatingHash (fun _ => "abc123") [] defaultCategories ++ s3 :=
  ⟨by decide, by decide,
    ratingHash_mismatch_fails (fun _ => "abc123") "My Env" [] defaultCategories
      "deadbeef" (by decide) (by decide)⟩

/-- Numeric value of a list of decimal digit characters, as computed by
JavaScript `parseInt` on a digit-only string. -/
def digitsToNat (ds : List Char) : Nat :=
  ds.foldl (fun n c => n * 10 + (c.toNat - 48)) 0

/-- Models the regular-expression match `^step-(\d+)` followed by
`parseInt(match[1])` in `Environment.getMultiStepPrompt`
(src/runner/configuration/environment.ts lines 590, 612-628): the entry
name must start with "step-" followed by at least one digit; the captured
group is the maximal run of digits, whose decimal value is returned. -/
def parseStepName (s : String) : Option Nat :=
  if "step-".data.isPrefixOf s.data then
    let digits := (s.data.drop 5).takeWhile Char.isDigit
    if digits.isEmpty then none else some (digitsToNat digits)
  else none

/-- One resolved step of a multi-step prompt: the slice of the
`PromptDefinition` built by `Environment.getSinglePromptDefinition` that is
relevant to ordering, together with the number recorded for it in the
`stepValues` record (src/runner/configuration/environment.ts lines
589-591, 632-641). The source keys `stepValues` by `step.name`; since the
step name is `` `${name}-step-${stepNum}` `` the name embeds the number,
so the value looked up for a step is always the number it was created
with, carried here as the `stepNum` field. -/
structure StepDef where
  name : String
  sourceEntry : String
  isEditing : Bool
  stepNum : Nat
deriving DecidableEq

/-- Builds the step definition for one directory entry
(src/runner/configuration/environment.ts lines 632-641): the step is named
`` `${name}-step-${stepNum}` ``, and it is an editing step unless its number
is 1 (`/* isEditing */ stepNum !== 1`). -/
def mkStepDef (base : String) (entry : String) (n : Nat) : StepDef :=
  { name := base ++ "-step-" ++ toString n
    sourceEntry := entry
    isEditing := n != 1
    stepNum := n }

/-- Per-entry resolution loop of `Environment.getMultiStepPrompt`
(src/runner/configuration/environment.ts lines 605-642): each directory
entry must match `step-<number>` (otherwise a user-facing error naming the
entry), its number must not be 0 (otherwise the `step-1` error), and a
step definition is produced per entry in directory-enumeration order.
Entries are the names of the directory's files (the claim's premise; the
source additionally rejects non-file entries). -/
def resolveSteps (base : String) : List String → Except String (List StepDef)
  | [] => .ok []
  | entry :: rest =>
    match parseStepName entry with
    | none =>
      .error ("Multi-step prompt name must be in the form of `step-<number>`, but received " ++ entry)
    | some n =>
      if n = 0 then .error "Multi-step prompts start with `step-1`."
      else
        match resolveSteps base rest with
        | .error e => .error e
        | .ok steps => .ok (mkStepDef base entry n :: steps)

/-- Comparator used to sort the steps
(src/runner/configuration/environment.ts line 647:
`steps.sort((a, b) => stepValues[a.name] - stepValues[b.name])`): ascending
by the step's recorded number. -/
def stepLE (a b : StepDef) : Bool := decide (a.stepNum ≤ b.stepNum)

/-- Models `Environment.getMultiStepPrompt`
(src/runner/configuration/environment.ts lines 583-649) for a directory
whose entries are files: rejects an empty directory, resolves every entry,
and returns the steps sorted ascending by step number. JavaScript
`Array.prototype.sort` is stable, modelled by a stable merge sort. -/
def getMultiStepPrompt (base : String) (entities : List String) :
    Except String (List StepDef) :=
  if entities.isEmpty then .error "Multi-step prompt directory cannot be empty."
  else
    match resolveSteps base entities with
    | .error e => .error e
    | .ok steps => .ok (steps.mergeSort stepLE)

/-- Transitivity of the step comparator. -/
theorem stepLE_trans : ∀ a b c : StepDef, stepLE a b → stepLE b c → stepLE a c := by
  intro a b c hab hbc
  simp only [stepLE, decide_eq_true_eq] at *
  exact Nat.le_trans hab hbc

/-- Totality of the step comparator. -/
theorem stepLE_total : ∀ a b : StepDef, stepLE a b || stepLE b a := by
  intro a b
  simp only [stepLE, Bool.or_eq_true, decide_eq_true_eq]
  exact Nat.le_total a.stepNum b.stepNum

/-- When every entry parses to a nonzero step number, resolution succeeds
and produces one step per entry, in enumeration order. -/
theorem resolveSteps_eq_map (base : String) (numOf : String → Nat) :
    ∀ entities : List String,
    (∀ e ∈ entities, parseStepName e = some (numOf e)) →
    (∀ e ∈ entities, numOf e ≠ 0) →
    resolveSteps base entities = .ok (entities.map (fun e => mkStepDef base e (numOf e)))
  | [] => fun _ _ => rfl
  | entry :: rest => by
    intro hparse hnz
    have hp := hparse entry (List.mem_cons_self _ _)
    have hn := hnz entry (List.mem_cons_self _ _)
    have hrest := resolveSteps_eq_map base numOf rest
      (fun e he => hparse e (List.mem_cons_of_mem _ he))
      (fun e he => hnz e (List.mem_cons_of_mem _ he))
    simp only [resolveSteps, hp, if_neg hn, hrest, List.map_cons]

/-- Claim C6: for every multi-step prompt directory whose entries are files
named `step-<n>` (each parsing to a distinct nonzero step number), the
resolved step sequence exists, is ordered by ascending parsed step number,
and is the same for any order in which the directory enumerates its
entries. -/
theorem multiStepPrompt_sorted_order_independent (base : String)
    (entities entities' : List String) (numOf : String → Nat)
    (hperm : entities.Perm entities')
    (hne : entities ≠ [])
    (hparse : ∀ e ∈ entities, parseStepName e = some (numOf e))
    (hnz : ∀ e ∈ entities, numOf e ≠ 0)
    (hinj : entities.Pairwise (fun a b => numOf a ≠ numOf b)) :
    ∃ steps,
      getMultiStepPrompt base entities = .ok steps ∧
      getMultiStepPrompt base entities' = .ok steps ∧
      steps.Pairwise (fun a b => a.stepNum ≤ b.stepNum) ∧
      (steps.map (fun s => s.sourceEntry)).Perm entities := by
  have hparse' : ∀ e ∈ entities', parseStepName e = some (numOf e) :=
    fun e he => hparse e (hperm.mem_iff.mpr he)
  have hnz' : ∀ e ∈ entities', numOf e ≠ 0 :=
    fun e he => hnz e (hperm.mem_iff.mpr he)
  have hne' : entities' ≠ [] := by
    intro h
    exact hne (List.Perm.eq_nil (h ▸ hperm))
  set f : String → StepDef := fun e => mkStepDef base e (numOf e) with hf
  have hres := resolveSteps_eq_map base numOf entities hparse hnz
  have hres' := resolveSteps_eq_map base numOf entities' hparse' hnz'
  have hmapperm : (entities.map f).Perm (entities'.map f) := hperm.map f
  -- Sortedness of each merge-sorted list, as the Prop-level relation.
  have hsorted : ∀ l : List StepDef,
      (l.mergeSort stepLE).Pairwise (fun a b => a.stepNum ≤ b.stepNum) := by
    intro l
    exact (List.sorted_mergeSort stepLE_trans stepLE_total l).imp
      (fun h => by simpa [stepLE] using h)
  -- Distinctness of step numbers in each merge-sorted list.
  have hnodup : ((entities.map f).mergeSort stepLE).Pairwise
      (fun a b => a.stepNum ≠ b.stepNum) := by
    have h1 : (entities.map f).Pairwise (fun a b => a.stepNum ≠ b.stepNum) :=
      (List.pairwise_map).mpr (hinj.imp (fun h => h))
    exact ((List.mergeSort_perm (entities.map f) stepLE).pairwise_iff
      (fun h => Ne.symm h)).mpr h1
  have hnodup' : ((entities'.map f).mergeSort stepLE).Pairwise
      (fun a b => a.stepNum ≠ b.stepNum) := by
    have h1 : (entities'.map f).Pairwise (fun a b => a.stepNum ≠ b.stepNum) := by
      refine (List.pairwise_map).mpr ?_
      exact ((hperm.pairwise_iff (fun h => Ne.symm h)).mp hinj).imp (fun h => h)
    exact ((List.mergeSort_perm (entities'.map f) stepLE).pairwise_iff
      (fun h => Ne.symm h)).mpr h1
  -- The two sorted sequences are equal.
  have hsortEq : (entities.map f).mergeSort stepLE = (entities'.map f).mergeSort stepLE := by
    haveI : IsAntisymm StepDef (fun a b => a.stepNum < b.stepNum) :=
      ⟨fun a b h1 h2 => (Nat.lt_asymm h1 h2).elim⟩
    apply List.eq_of_perm_of_sorted (r := fun a b : StepDef => a.stepNum < b.stepNum)
    · exact (List.mergeSort_perm _ stepLE).trans
        (hmapperm.trans (List.mergeSort_perm _ stepLE).symm)
    · exact ((hsorted (entities.map f)).and hnodup).imp
        (fun h => Nat.lt_of_le_of_ne h.1 h.2)
    · exact ((hsorted (entities'.map f)).and hnodup').imp
        (fun h => Nat.lt_of_le_of_ne h.1 h.2)
  refine ⟨(entities.map f).mergeSort stepLE, ?_, ?_, hsorted _, ?_⟩
  · simp only [getMultiStepPrompt, hres]
    rw [if_neg (by simpa [List.isEmpty_iff] using hne)]
  · simp only [getMultiStepPrompt, hres']
    rw [if_neg (by simpa [List.isEmpty_iff] using hne'), hsortEq]
  · have h1 : (((entities.map f).mergeSort stepLE).map (fun s => s.sourceEntry)).Perm
        ((entities.map f).map (fun s => s.sourceEntry)) :=
      (List.mergeSort_perm _ stepLE).map _
    have h2 : (entities.map f).map (fun s => s.sourceEntry) = entities := by
      rw [List.map_map]
      exact List.map_id entities
    have h3 : ((entities.map f).map (fun s => s.sourceEntry)).Perm entities := by
      rw [h2]
    exact h1.trans h3

/-- Concrete instantiation of claim C6's theorem: the files `step-2`,
`step-1`, `step-3`, enumerated in that order or in sorted order, resolve to
the same ascending sequence. -/
theorem multiStepPrompt_sorted_order_independent_witness :
    ∃ steps,
      getMultiStepPrompt "checkout" ["step-2", "step-1", "step-3"] = .ok steps ∧
      getMultiStepPrompt "checkout" ["step-1", "step-2", "step-3"] = .ok steps ∧
      steps.Pairwise (fun a b => a.stepNum ≤ b.stepNum) ∧
      (steps.map (fun s => s.sourceEntry)).Perm ["step-2", "step-1", "step-3"] :=
  multiStepPrompt_sorted_order_independent "checkout"
    ["step-2", "step-1", "step-3"] ["step-1", "step-2", "step-3"]
    (fun e => (parseStepName e).getD 0)
    (by decide) (by decide) (by decide) (by decide) (by decide)

/-- Reflexivity of the lexicographic comparison. -/
theorem charListLE_refl : ∀ x, charListLE x x = true
  | [] => rfl
  | a :: as => by
    simp only [charListLE, if_neg (lt_irrefl a)]
    exact charListLE_refl as

/-- Reflexivity of `strLE`. -/
theorem strLE_refl (a : String) : strLE a a = true :=
  charListLE_refl a.data

/-- The slice of an `AssessmentResult` (src/runner/shared-interfaces.ts)
relevant to the orchestrator: the serialisable prompt identity pushed by
`startEvaluationTask` (src/runner/orchestration/generate-eval-task.ts lines
236-242: only `name` and `prompt` of the definition are retained). The
remaining fields (output files, score, attempts, logs) do not influence
ordering or aggregation and are not modelled. -/
structure AssessmentResult where
  promptName : String
  prompt : String
deriving DecidableEq

/-- One entry of the failed-prompts list
(src/runner/orchestration/generate.ts lines 210-214): prompt name, the
stringified error, and the optional stack. -/
structure FailedPrompt where
  promptName : String
  error : String
  stack : Option String
deriving DecidableEq

/-- Outcome of one invocation of `evaluate()` for a prompt
(src/runner/orchestration/generate.ts lines 160-195): either it resolves
with the task's results, or it throws. A thrown error is distinguished by
whether it is a `TimeoutError` (`isTimeout`), and carries its string form
`` `${e}` `` and optional stack. -/
inductive EvalOutcome where
  | ok (results : List AssessmentResult)
  | err (isTimeout : Bool) (message : String) (stack : Option String)

/-- The retry loop of `generateCodeAndAssess`
(src/runner/orchestration/generate.ts lines 197-225), indexed by the number
of attempts still available (`remaining = maxAttempts - attemptIdx`; the
loop body runs while `attemptIdx < maxAttempts`). On success the results
are returned; on a `TimeoutError` with at least one attempt left
(`attemptIdx < maxAttempts - 1`, i.e. `0 < remaining - 1`) the next attempt
runs; otherwise exactly one failed-prompt entry is recorded and the prompt
yields the empty result list. The `remaining = 0` base case corresponds to
the `promptResults === null` check after the loop, unreachable because
`maxAttempts ≥ 1`. -/
def evalAttempts (name : String) (attemptOutcome : Nat → EvalOutcome)
    (attemptIdx : Nat) : Nat → List AssessmentResult × List FailedPrompt
  | 0 => ([], [])
  | remaining + 1 =>
    match attemptOutcome attemptIdx with
    | .ok rs => (rs, [])
    | .err isTimeout msg stack =>
      if isTimeout && decide (0 < remaining) then
        evalAttempts name attemptOutcome (attemptIdx + 1) remaining
      else
        ([], [⟨name, msg, stack⟩])

/-- One prompt's whole job on the outer pool
(src/runner/orchestration/generate.ts line 198:
`maxAttempts = (options.promptTimeoutRetries ?? 0) + 1`). -/
def runPromptJob (name : String) (attemptOutcome : Nat → EvalOutcome)
    (promptTimeoutRetries : Nat) : List AssessmentResult × List FailedPrompt :=
  evalAttempts name attemptOutcome 0 (promptTimeoutRetries + 1)

/-- A prompt job as scheduled by the orchestrator: the root prompt
definition's name together with the outcome its evaluation would produce on
each attempt (the behaviour of the timeout-guarded `startEvaluationTask`
call, an external interaction from the orchestrator's point of view). -/
structure JobSpec where
  name : String
  attemptOutcome : Nat → EvalOutcome

/-- Comparator used on the final result list
(src/runner/orchestration/generate.ts line 242:
`.sort((a, b) => a.promptDef.name.localeCompare(b.promptDef.name))`).
`localeCompare`'s collation is modelled by code-unit order; any total
preorder on names yields the same stability structure. -/
def resultLE (a b : AssessmentResult) : Bool := strLE a.promptName b.promptName

/-- Sorting of the flattened results (src/runner/orchestration/generate.ts
lines 240-242). JavaScript `Array.prototype.sort` is stable (ES2019),
modelled by a stable merge sort. -/
def sortResults (rs : List AssessmentResult) : List AssessmentResult :=
  rs.mergeSort resultLE

/-- Models the per-prompt scheduling, retry and aggregation of
`generateCodeAndAssess` (src/runner/orchestration/generate.ts lines
154-242): one job per prompt, each retried per the timeout policy; the
result lists are flattened and sorted by prompt name; the failure entries
recorded by the jobs form the failed-prompts list. `Promise.all` preserves
the submission order of `allTasks`, so the flattened list is independent of
the order in which concurrent jobs complete; the source pushes
failed-prompt entries in completion order, which this model renders in
submission order — the claims proved below about that list (membership and
multiplicity) are invariant under its permutation. -/
def generateCodeAndAssess (promptTimeoutRetries : Nat) (jobs : List JobSpec) :
    List AssessmentResult × List FailedPrompt :=
  let perJob := jobs.map (fun j => runPromptJob j.name j.attemptOutcome promptTimeoutRetries)
  (sortResults (perJob.map Prod.fst).flatten, (perJob.map Prod.snd).flatten)

/-- Insertion-order iteration of a JavaScript `Set` under construction:
an element is kept only the first time it is seen. -/
def setDedupAux {α : Type} [DecidableEq α] : List α → List α → List α
  | [], _ => []
  | a :: l, seen =>
    if a ∈ seen then setDedupAux l seen else a :: setDedupAux l (a :: seen)

/-- Models `Array.from(new Set(xs))`: deduplication keeping the first
occurrence of each element, in insertion order. -/
def arrayFromSet {α : Type} [DecidableEq α] (l : List α) : List α :=
  setDedupAux l []

/-- The labels stored in the run's `RunDetails`
(src/runner/orchestration/generate.ts line 273:
`labels: Array.from(new Set(options.labels))`). -/
def runDetailsLabels (labels : List String) : List String :=
  arrayFromSet labels

/-- Reference rendering of "duplicates removed while preserving
first-occurrence order": keep the head, drop its later duplicates,
recurse. Used to characterise `arrayFromSet`. -/
def firstOccurDedup {α : Type} [DecidableEq α] : List α → List α
  | [] => []
  | a :: l =>
    a :: firstOccurDedup (l.filter (fun b => b ≠ a))
termination_by l => l.length
decreasing_by
  simp only [List.length_cons]
  exact Nat.lt_succ_of_le (List.length_filter_le _ _)

/-- A job whose first attempt succeeds returns its results and records no
failure. -/
theorem runPromptJob_first_ok {name : String} {f : Nat → EvalOutcome}
    {rs : List AssessmentResult} (retries : Nat) (h : f 0 = .ok rs) :
    runPromptJob name f retries = (rs, []) := by
  simp only [runPromptJob, evalAttempts, h]

/-- When every attempt up to and including attempt `retries` raises a
timeout, the loop runs them all and then records exactly one failure entry,
built from the final attempt's error. -/
theorem evalAttempts_all_timeout (name : String) (f : Nat → EvalOutcome)
    (bmsg : Nat → String) (bstack : Nat → Option String) (retries : Nat)
    (hbad : ∀ i, i ≤ retries → f i = .err true (bmsg i) (bstack i)) :
    ∀ (d attemptIdx : Nat), attemptIdx + d = retries →
    evalAttempts name f attemptIdx (d + 1) =
      ([], [⟨name, bmsg retries, bstack retries⟩]) := by
  intro d
  induction d with
  | zero =>
    intro attemptIdx h
    have hidx : attemptIdx = retries := by omega
    subst hidx
    simp only [evalAttempts, hbad attemptIdx (Nat.le_refl _)]
    simp
  | succ d ih =>
    intro attemptIdx h
    have hcur : f attemptIdx = .err true (bmsg attemptIdx) (bstack attemptIdx) :=
      hbad _ (by omega)
    simp only [evalAttempts, hcur]
    rw [if_pos (by simp)]
    exact ih (attemptIdx + 1) (by omega)

/-- Timeout attempts before attempt `k` are skipped over by the loop. -/
theorem evalAttempts_skip_timeouts (name : String) (f : Nat → EvalOutcome) :
    ∀ (k attemptIdx remaining : Nat),
    (∀ i, i < k → ∃ m s, f (attemptIdx + i) = .err true m s) →
    k < remaining →
    evalAttempts name f attemptIdx remaining =
      evalAttempts name f (attemptIdx + k) (remaining - k) := by
  intro k
  induction k with
  | zero => intro attemptIdx remaining _ _; simp
  | succ k ih =>
    intro attemptIdx remaining htime hk
    obtain ⟨m, s, hm⟩ := htime 0 (Nat.succ_pos k)
    rw [Nat.add_zero] at hm
    cases remaining with
    | zero => omega
    | succ r =>
      simp only [evalAttempts, hm]
      rw [if_pos (by simp only [Bool.true_and, decide_eq_true_eq]; omega)]
      have h2 : ∀ i, i < k → ∃ m s, f (attemptIdx + 1 + i) = .err true m s := by
        intro i hi
        have h3 := htime (i + 1) (by omega)
        have h4 : attemptIdx + (i + 1) = attemptIdx + 1 + i := by omega
        rw [h4] at h3
        exact h3
      have h5 := ih (attemptIdx + 1) r h2 (by omega)
      rw [h5]
      congr 1 <;> omega

/-- Flattening a list of empty lists yields the empty list. -/
theorem flatten_map_nil {α β : Type} (l : List β) :
    (l.map (fun _ => ([] : List α))).flatten = [] := by
  induction l with
  | nil => rfl
  | cons b l ih => simp [ih]

/-- Claim C1: (1) for a job whose every attempt (initial plus the
`promptTimeoutRetries` retries) raises a timeout, exactly one failure entry
(prompt name, final error, optional stack) is recorded, the job yields an
empty result list, and the run still returns the results of all other
prompts; (2) a non-timeout failure, even with retry budget left, records
exactly one failure entry immediately and yields an empty result list;
(3) a timeout is retried: if some attempt `k ≤ promptTimeoutRetries`
succeeds after `k` timeouts, the job returns that attempt's results with no
failure entry. -/
theorem timeout_retry_and_failure_isolation :
    (∀ (retries : Nat) (pre post : List JobSpec) (bad : JobSpec)
       (results : JobSpec → List AssessmentResult)
       (bmsg : Nat → String) (bstack : Nat → Option String),
       (∀ j ∈ pre ++ post, j.attemptOutcome 0 = .ok (results j)) →
       (∀ i, i ≤ retries → bad.attemptOutcome i = .err true (bmsg i) (bstack i)) →
       generateCodeAndAssess retries (pre ++ bad :: post) =
         (sortResults ((pre ++ post).map results).flatten,
          [⟨bad.name, bmsg retries, bstack retries⟩])) ∧
    (∀ (retries k : Nat) (name : String) (f : Nat → EvalOutcome)
       (msg : String) (stack : Option String),
       k ≤ retries →
       (∀ i, i < k → ∃ m s, f i = .err true m s) →
       f k = .err false msg stack →
       runPromptJob name f retries = ([], [⟨name, msg, stack⟩])) ∧
    (∀ (retries k : Nat) (name : String) (f : Nat → EvalOutcome)
       (rs : List AssessmentResult),
       k ≤ retries →
       (∀ i, i < k → ∃ m s, f i = .err true m s) →
       f k = .ok rs →
       runPromptJob name f retries = (rs, [])) := by
  refine ⟨?_, ?_, ?_⟩
  · intro retries pre post bad results bmsg bstack hothers hbad
    have hbadrun : runPromptJob bad.name bad.attemptOutcome retries =
        ([], [⟨bad.name, bmsg retries, bstack retries⟩]) := by
      have h := evalAttempts_all_timeout bad.name bad.attemptOutcome bmsg bstack retries
        hbad retries 0 (by omega)
      simpa [runPromptJob] using h
    have hmap : (pre ++ bad :: post).map
        (fun j => runPromptJob j.name j.attemptOutcome retries) =
        (pre.map (fun j => (results j, ([] : List FailedPrompt)))) ++
          (([] : List AssessmentResult),
            [(⟨bad.name, bmsg retries, bstack retries⟩ : FailedPrompt)]) ::
          (post.map (fun j => (results j, ([] : List FailedPrompt)))) := by
      rw [List.map_append, List.map_cons]
      congr 1
      · exact List.map_congr_left
          (fun j hj => runPromptJob_first_ok retries (hothers j (List.mem_append_left _ hj)))
      · congr 1
        exact List.map_congr_left
          (fun j hj => runPromptJob_first_ok retries (hothers j (List.mem_append_right _ hj)))
    refine Prod.ext ?_ ?_
    · simp only [generateCodeAndAssess, hmap, List.map_append, List.map_cons,
        List.map_map, List.flatten_append, List.flatten_cons]
      rw [show (Prod.fst ∘ fun j => (results j, ([] : List FailedPrompt))) = results from rfl]
      simp
    · simp only [generateCodeAndAssess, hmap, List.map_append, List.map_cons,
        List.map_map, List.flatten_append, List.flatten_cons]
      rw [show (Prod.snd ∘ fun j => (results j, ([] : List FailedPrompt))) =
        (fun _ => ([] : List FailedPrompt)) from rfl]
      simp [flatten_map_nil]
  · intro retries k name f msg stack hk htime hfail
    have hskip := evalAttempts_skip_timeouts name f k 0 (retries + 1)
      (by simpa using htime) (by omega)
    rw [runPromptJob, hskip]
    have hrem : retries + 1 - k = (retries - k) + 1 := by omega
    rw [Nat.zero_add, hrem]
    simp only [evalAttempts, hfail]
    simp
  · intro retries k name f rs hk htime hok
    have hskip := evalAttempts_skip_timeouts name f k 0 (retries + 1)
      (by simpa using htime) (by omega)
    rw [runPromptJob, hskip]
    have hrem : retries + 1 - k = (retries - k) + 1 := by omega
    rw [Nat.zero_add, hrem]
    simp only [evalAttempts, hok]

/-- Concrete instantiation of claim C1's theorem: a two-prompt run where
one prompt times out on both of its attempts (initial + 1 retry) and a
single-prompt job failing with a non-timeout error, plus a retry that
succeeds on the second attempt. -/
theorem timeout_retry_and_failure_isolation_witness :
    generateCodeAndAssess 1
      [⟨"zulu", fun _ => .err true "Timeout" none⟩,
       ⟨"alpha", fun _ => .ok [⟨"alpha", "p"⟩]⟩] =
      (sortResults ([[⟨"alpha", "p"⟩]] : List (List AssessmentResult)).flatten,
       [⟨"zulu", "Timeout", none⟩]) ∧
    runPromptJob "beta" (fun _ => .err false "boom" none) 1 =
      ([], [⟨"beta", "boom", none⟩]) ∧
    runPromptJob "gamma"
      (fun i => if i = 0 then .err true "t" none else .ok [⟨"gamma", "q"⟩]) 2 =
      ([⟨"gamma", "q"⟩], []) := by
  refine ⟨timeout_retry_and_failure_isolation.1 1 []
      [⟨"alpha", fun _ => .ok [⟨"alpha", "p"⟩]⟩]
      ⟨"zulu", fun _ => .err true "Timeout" none⟩
      (fun _ => [⟨"alpha", "p"⟩]) (fun _ => "Timeout") (fun _ => none) ?_ ?_,
    timeout_retry_and_failure_isolation.2.1 1 0 "beta"
      (fun _ => .err false "boom" none) "boom" none (by omega) ?_ rfl,
    timeout_retry_and_failure_isolation.2.2 2 1 "gamma"
      (fun i => if i = 0 then .err true "t" none else .ok [⟨"gamma", "q"⟩])
      [⟨"gamma", "q"⟩] (by omega) ?_ rfl⟩
  · intro j hj
    rw [List.nil_append, List.mem_singleton] at hj
    subst hj
    rfl
  · intro i _
    rfl
  · intro i hi
    exact absurd hi (Nat.not_lt_zero i)
  · intro i hi
    have h0 : i = 0 := by omega
    subst h0
    exact ⟨"t", none, rfl⟩

/-- Transitivity of the result-name comparator. -/
theorem resultLE_trans (a b c : AssessmentResult) :
    resultLE a b → resultLE b c → resultLE a c :=
  fun h1 h2 => strLE_trans h1 h2

/-- Totality of the result-name comparator. -/
theorem resultLE_total (a b : AssessmentResult) : resultLE a b || resultLE b a := by
  rcases strLE_total a.promptName b.promptName with h | h <;>
    simp [resultLE, h]

/-- Claim C7: the final AssessmentResult list is a permutation of the
flattened job results, sorted ascending by prompt name, with equal names
left in stable input order; and the orchestrator's result component is
exactly this sort of the flattened per-job results, whose order is the job
submission order (independent of completion order, since `Promise.all`
preserves the order of the task array). -/
theorem finalResults_sorted_stable (taskResults : List (List AssessmentResult)) :
    (sortResults taskResults.flatten).Perm taskResults.flatten ∧
    (sortResults taskResults.flatten).Pairwise (fun a b => resultLE a b = true) ∧
    (∀ a b : AssessmentResult, [a, b].Sublist taskResults.flatten →
      a.promptName = b.promptName → [a, b].Sublist (sortResults taskResults.flatten)) ∧
    (∀ (retries : Nat) (jobs : List JobSpec),
      (generateCodeAndAssess retries jobs).fst =
        sortResults ((jobs.map
          (fun j => (runPromptJob j.name j.attemptOutcome retries).fst)).flatten)) := by
  refine ⟨List.mergeSort_perm _ _, ?_, ?_, ?_⟩
  · exact List.sorted_mergeSort resultLE_trans resultLE_total taskResults.flatten
  · intro a b hsub hname
    refine List.pair_sublist_mergeSort resultLE_trans resultLE_total ?_ hsub
    show strLE a.promptName b.promptName = true
    rw [hname]
    exact strLE_refl _
  · intro retries jobs
    simp only [generateCodeAndAssess, List.map_map]
    rfl

/-- Concrete instantiation of claim C7's theorem: two results with the same
prompt name keep their input order in the sorted output. -/
theorem finalResults_sorted_stable_witness :
    ([⟨"p", "x"⟩, ⟨"p", "y"⟩] : List AssessmentResult).Sublist
      (sortResults ([[⟨"p", "x"⟩], [⟨"p", "y"⟩]] : List (List AssessmentResult)).flatten) :=
  (finalResults_sorted_stable [[⟨"p", "x"⟩], [⟨"p", "y"⟩]]).2.2.1
    ⟨"p", "x"⟩ ⟨"p", "y"⟩ (List.Sublist.refl _) rfl

/-- Set-based deduplication agrees with the first-occurrence reference:
elements already seen are dropped, the rest are deduplicated keeping first
occurrences. -/
theorem setDedupAux_eq {α : Type} [DecidableEq α] :
    ∀ (l seen : List α),
    setDedupAux l seen = firstOccurDedup (l.filter (fun a => a ∉ seen))
  | [], _ => by simp [setDedupAux, firstOccurDedup]
  | a :: l, seen => by
    by_cases ha : a ∈ seen
    · rw [setDedupAux, if_pos ha, List.filter_cons,
        if_neg (by simpa using ha), setDedupAux_eq l seen]
    · rw [setDedupAux, if_neg ha, List.filter_cons, if_pos (by simpa using ha),
        firstOccurDedup, setDedupAux_eq l (a :: seen), List.filter_filter]
      congr 2
      apply List.filter_congr
      intro x _
      have hiff : (x ∉ a :: seen) ↔ (x ≠ a ∧ x ∉ seen) := by
        simp [not_or]
      rw [decide_eq_decide.mpr hiff, Bool.decide_and]

/-- Membership in the first-occurrence deduplication. -/
theorem firstOccurDedup_mem {α : Type} [DecidableEq α] :
    ∀ (l : List α) (a : α), a ∈ firstOccurDedup l ↔ a ∈ l
  | [], a => by simp [firstOccurDedup]
  | b :: l, a => by
    rw [firstOccurDedup]
    by_cases hab : a = b
    · subst hab
      simp
    · simp only [List.mem_cons, firstOccurDedup_mem (l.filter (fun x => x ≠ b)) a,
        List.mem_filter]
      simp [hab]
termination_by l => l.length
decreasing_by
  simp only [List.length_cons]
  exact Nat.lt_succ_of_le (List.length_filter_le _ _)

/-- The first-occurrence deduplication has no duplicates. -/
theorem firstOccurDedup_nodup {α : Type} [DecidableEq α] :
    ∀ l : List α, (firstOccurDedup l).Nodup
  | [] => by simp [firstOccurDedup]
  | b :: l => by
    rw [firstOccurDedup]
    refine List.nodup_cons.mpr ⟨?_, firstOccurDedup_nodup _⟩
    intro hmem
    rw [firstOccurDedup_mem] at hmem
    simp [List.mem_filter] at hmem
termination_by l => l.length
decreasing_by
  simp only [List.length_cons]
  exact Nat.lt_succ_of_le (List.length_filter_le _ _)

/-- The first-occurrence deduplication is a sublist of its input. -/
theorem firstOccurDedup_sublist {α : Type} [DecidableEq α] :
    ∀ l : List α, (firstOccurDedup l).Sublist l
  | [] => by simp [firstOccurDedup]
  | b :: l => by
    rw [firstOccurDedup]
    exact List.Sublist.cons₂ b
      ((firstOccurDedup_sublist _).trans (List.filter_sublist l))
termination_by l => l.length
decreasing_by
  simp only [List.length_cons]
  exact Nat.lt_succ_of_le (List.length_filter_le _ _)

/-- Claim C9: the labels stored in the run's RunDetails equal the
configured labels with duplicates removed while preserving
first-occurrence order: the stored list is exactly the first-occurrence
deduplication of the input, is duplicate-free, a subsequence of the input
with the same members, and each configured label appears in it exactly
once. -/
theorem runDetailsLabels_dedup (labels : List String) :
    runDetailsLabels labels = firstOccurDedup labels ∧
    (runDetailsLabels labels).Nodup ∧
    (∀ a, a ∈ runDetailsLabels labels ↔ a ∈ labels) ∧
    (runDetailsLabels labels).Sublist labels ∧
    (∀ a ∈ labels, (runDetailsLabels labels).count a = 1) := by
  have heq : runDetailsLabels labels = firstOccurDedup labels := by
    rw [runDetailsLabels, arrayFromSet, setDedupAux_eq]
    congr 1
    simp
  have hmem : ∀ a, a ∈ runDetailsLabels labels ↔ a ∈ labels := by
    intro a
    rw [heq]
    exact firstOccurDedup_mem labels a
  have hnodup : (runDetailsLabels labels).Nodup := by
    rw [heq]
    exact firstOccurDedup_nodup labels
  refine ⟨heq, hnodup, hmem, ?_, ?_⟩
  · rw [heq]
    exact firstOccurDedup_sublist labels
  · intro a ha
    exact List.count_eq_one_of_mem hnodup ((hmem a).mpr ha)

/-- Concrete instantiation of claim C9's theorem: a duplicated label is
stored exactly once. -/
theorem runDetailsLabels_dedup_witness :
    "perf" ∈ ["perf", "a11y", "perf"] ∧
    (runDetailsLabels ["perf", "a11y", "perf"]).count "perf" = 1 :=
  ⟨by decide,
    (runDetailsLabels_dedup ["perf", "a11y", "perf"]).2.2.2.2 "perf" (by decide)⟩

/-- Concurrency configuration (`AssessmentConfig.concurrency`,
src/runner/shared-interfaces.ts): either the literal 'auto' or an explicit
number of concurrent jobs. -/
inductive ConcurrencySetting where
  | auto
  | fixed (n : Nat)

/-- Outer (job) pool size (src/runner/orchestration/generate.ts lines
113-116): `Math.floor(availableParallelism() * 0.8)` when automatic,
otherwise the explicit number. The JavaScript floating-point product is
modelled exactly in the rationals; for machine core counts the double
computation rounds to the same value. -/
def appConcurrency (c : ConcurrencySetting) (availableParallelism : Nat) : Nat :=
  match c with
  | .auto => Nat.floor ((availableParallelism : ℚ) * 0.8)
  | .fixed n => n

/-- Inner (heavy build/test) pool size (src/runner/orchestration/generate.ts
lines 144-152): `Math.floor(appConcurrency * 0.5)` when automatic,
otherwise `Infinity`, modelled as `none` (unbounded). -/
def workerConcurrency (c : ConcurrencySetting) (appConc : Nat) : Option Nat :=
  match c with
  | .auto => some (Nat.floor ((appConc : ℚ) * 0.5))
  | .fixed _ => none

/-- Modelled from the spec: the bounded concurrency queue semantics of the
external `p-queue` library (`new PQueue({concurrency})`), which the spec
describes as a pool that "limits concurrently-running" operations — a task
start is admitted only while the number of active tasks is below the
pool's capacity; a finish releases one slot. -/
inductive PoolEvent where
  | start
  | finish

/-- Admission test of the pool: an unbounded pool always admits; a bounded
pool admits only below capacity. -/
def canAdmit (capacity : Option Nat) (active : Nat) : Bool :=
  match capacity with
  | none => true
  | some c => decide (active < c)

/-- One pool transition: an admitted start increments the active count, a
start that is not admitted waits (the count is unchanged), a finish
decrements it. -/
def poolStep (capacity : Option Nat) (active : Nat) : PoolEvent → Nat
  | .start => if canAdmit capacity active then active + 1 else active
  | .finish => active - 1

/-- Number of active tasks after a sequence of pool events, starting idle. -/
def poolActive (capacity : Option Nat) (events : List PoolEvent) : Nat :=
  events.foldl (poolStep capacity) 0

/-- A bounded pool's active count never exceeds its capacity, from any
in-bound starting count. -/
theorem poolActive_fold_le (c : Nat) :
    ∀ (events : List PoolEvent) (a : Nat), a ≤ c →
      events.foldl (poolStep (some c)) a ≤ c
  | [], a, ha => ha
  | e :: events, a, ha => by
    rw [List.foldl_cons]
    refine poolActive_fold_le c events _ ?_
    cases e with
    | start =>
      simp only [poolStep, canAdmit]
      by_cases h : a < c
      · rw [if_pos (by simpa using h)]
        omega
      · rw [if_neg (by simpa using h)]
        exact ha
    | finish =>
      simp only [poolStep]
      omega

/-- The rational products in the pool sizes reduce to natural division. -/
theorem floor_mul_eight_tenths (p : Nat) : Nat.floor ((p : ℚ) * 0.8) = p * 8 / 10 := by
  have h : (p : ℚ) * 0.8 = ((p * 8 : Nat) : ℚ) / ((10 : Nat) : ℚ) := by
    push_cast
    ring_nf
  rw [h, Nat.floor_div_nat, Nat.floor_natCast]

/-- Halving via the floating-point product by 0.5 is natural halving. -/
theorem floor_mul_half (p : Nat) : Nat.floor ((p : ℚ) * 0.5) = p / 2 := by
  have h : (p : ℚ) * 0.5 = ((p : Nat) : ℚ) / ((2 : Nat) : ℚ) := by
    push_cast
    ring_nf
  rw [h, Nat.floor_div_nat, Nat.floor_natCast]

/-- Claim C8: automatic sizing gives an outer pool of
`floor(availableParallelism * 0.8)` and an inner pool of half that
(floored); an explicit concurrency number sizes the outer pool exactly and
leaves the inner pool unbounded; and with outer pool size 4 under automatic
inner sizing the inner pool capacity is 2, so at most 2 heavy operations
are ever active concurrently. -/
theorem concurrencyPools_sizing_and_bound :
    (∀ p : Nat, appConcurrency .auto p = p * 8 / 10) ∧
    (∀ n p : Nat, appConcurrency (.fixed n) p = n) ∧
    (∀ a : Nat, workerConcurrency .auto a = some (a / 2)) ∧
    (∀ n a : Nat, workerConcurrency (.fixed n) a = none) ∧
    workerConcurrency .auto 4 = some 2 ∧
    (∀ events : List PoolEvent, poolActive (some 2) events ≤ 2) := by
  refine ⟨?_, fun _ _ => rfl, ?_, fun _ _ => rfl, ?_, ?_⟩
  · intro p
    exact floor_mul_eight_tenths p
  · intro a
    rw [workerConcurrency, floor_mul_half]
  · rw [workerConcurrency, floor_mul_half]
  · intro events
    exact poolActive_fold_le 2 events 0 (by omega)

/-- The generation collaborator's response as consumed by
`startEvaluationTask` (src/runner/orchestration/generate-eval-task.ts):
generated files plus the optional `toolLogs` list. -/
structure GenResponse where
  files : List String
  toolLogs : Option (List String)

/-- Behaviour of the `generateInitialFiles` call for one step: it may throw,
resolve with a nullish value ("returns nothing"), or resolve with a
response. `generateInitialFiles` itself is not among the analysed sources;
its failure modes are the ones the spec attributes to the generation step
("if this fails or returns nothing"). -/
inductive GenOutcome where
  | throws (e : String)
  | nullish
  | ok (resp : GenResponse)

/-- Behaviour of the `writeResponseFiles` call for one step
(src/runner/orchestration/generate-eval-task.ts lines 145-173: a write
failure is caught, logged and stops the job). -/
inductive WriteOutcome where
  | throws (e : String)
  | ok

/-- Behaviour of the `attemptBuildAndTest` call for one step
(src/runner/orchestration/generate-eval-task.ts lines 199-217: a nullish
attempt stops the job after cleanup). -/
inductive BuildOutcome where
  | nullish
  | ok

/-- Externally observable behaviour of one step's collaborator calls. -/
structure StepBehavior where
  name : String
  gen : GenOutcome
  write : WriteOutcome
  build : BuildOutcome

/-- Observable outcome of `startEvaluationTask`: either the collected
per-step results or a propagated exception, together with how many times
the workspace `cleanup()` ran and which error log lines were emitted. -/
structure TaskRun where
  result : Except String (List String)
  cleanupRuns : Nat
  logs : List String

/-- The per-step loop of `startEvaluationTask`
(src/runner/orchestration/generate-eval-task.ts lines 106-257), translated
faithfully including its error handling:

  - line 133 `const toolLogs = initialResponse.toolLogs ?? [];` executes
    BEFORE the line 135 `if (!initialResponse)` guard, so a nullish
    generation response raises a TypeError at line 133; the guard (which
    would log, clean up and break) is unreachable;
  - a thrown generation error is not caught anywhere in the function;
  - the final `await cleanup()` (line 256) is at the end of the function
    body, not in a `finally` block, so a propagated exception skips it;
  - a write failure is caught: it logs, cleans up and breaks, after which
    the post-loop cleanup runs again (lines 157-173, 256);
  - a nullish build/test attempt cleans up and breaks (lines 214-217),
    after which the post-loop cleanup runs again. -/
def stepsLoop : List StepBehavior → List String → List String → TaskRun
  | [], results, logs => { result := .ok results, cleanupRuns := 1, logs := logs }
  | step :: rest, results, logs =>
    match step.gen with
    | .throws e => { result := .error e, cleanupRuns := 0, logs := logs }
    | .nullish =>
      { result := .error "TypeError: Cannot read properties of null (reading toolLogs)"
        cleanupRuns := 0
        logs := logs }
    | .ok _ =>
      match step.write with
      | .throws _ =>
        { result := .ok results
          cleanupRuns := 2
          logs := logs ++ ["Failed to generate initial code using AI. Skipping this app."] }
      | .ok =>
        match step.build with
        | .nullish => { result := .ok results, cleanupRuns := 2, logs := logs }
        | .ok => stepsLoop rest (results ++ [step.name]) logs

/-- Models `startEvaluationTask`
(src/runner/orchestration/generate-eval-task.ts lines 84-258) as a function
of each step's collaborator behaviour. -/
def startEvaluationTask (steps : List StepBehavior) : TaskRun :=
  stepsLoop steps [] []

/-- Claim C2 (divergence of code from claim): when the generation
collaborator returns nothing for a step, the job executor raises a
TypeError at the `initialResponse.toolLogs` access before its own null
guard, so nothing is logged, the job crashes (the error propagates to the
orchestrator), and the workspace cleanup never runs; when the generation
call throws, the error likewise propagates with no log and no cleanup. By
contrast, the caught write-failure path shows the intended pattern: it
logs and runs cleanup. -/
theorem generationFailure_crashes_without_cleanup :
    startEvaluationTask [⟨"step-1", .nullish, .ok, .ok⟩] =
      { result := .error "TypeError: Cannot read properties of null (reading toolLogs)"
        cleanupRuns := 0
        logs := [] } ∧
    startEvaluationTask [⟨"step-1", .throws "generation failed", .ok, .ok⟩] =
      { result := .error "generation failed", cleanupRuns := 0, logs := [] } ∧
    startEvaluationTask [⟨"step-1", .ok ⟨[], none⟩, .throws "write failed", .ok⟩] =
      { result := .ok []
        cleanupRuns := 2
        logs := ["Failed to generate initial code using AI. Skipping this app."] } :=
  ⟨rfl, rfl, rfl⟩

/-- A file produced by the model (`LlmResponseFile`,
src/runner/shared-interfaces.ts): a path and its code. -/
structure LlmResponseFile where
  filePath : String
  code : String
deriving DecidableEq

/-- The schema-shaped structured output of the constrained generation in
`AiSDKRunner.generateFiles` (src/runner/codegen/ai-sdk/ai-sdk-runner.ts
lines 107-114): an object with an `outputFiles` array. -/
structure ConstrainedOutput where
  outputFiles : List LlmResponseFile

/-- The relevant slice of `generateConstrained`'s response
(src/runner/codegen/ai-sdk/ai-sdk-runner.ts lines 87-97): the reasoning
text and the structured output, which may be absent. -/
structure ConstrainedResponse where
  reasoning : String
  output : Option ConstrainedOutput

/-- Result type of `AiSDKRunner.generateFiles`
(`LocalLlmGenerateFilesResponse`): the `files` field is a plain (never
optional) array. -/
structure GenerateFilesResponse where
  files : List LlmResponseFile
  reasoning : String

/-- Models the result construction of `AiSDKRunner.generateFiles`
(src/runner/codegen/ai-sdk/ai-sdk-runner.ts lines 117-123):
`files: response.output?.outputFiles ?? []`. -/
def generateFiles (response : ConstrainedResponse) : GenerateFilesResponse :=
  { files :=
      match response.output with
      | some o => o.outputFiles
      | none => []
    reasoning := response.reasoning }

/-- Claim C10: `generateFiles` always resolves with a files array — when
the constrained generation yields no structured output the files field is
the empty array, and otherwise it is the structured output's array; a
caller never observes an absent files field. -/
theorem generateFiles_always_files_array (response : ConstrainedResponse) :
    (response.output = none → (generateFiles response).files = []) ∧
    (∀ o, response.output = some o → (generateFiles response).files = o.outputFiles) := by
  constructor
  · intro h
    simp [generateFiles, h]
  · intro o h
    simp [generateFiles, h]

/-- Concrete instantiation of claim C10's theorem: a response without
structured output yields the empty files array. -/
theorem generateFiles_always_files_array_witness :
    (generateFiles ⟨"some reasoning", none⟩).files = [] :=
  (generateFiles_always_files_array ⟨"some reasoning", none⟩).1 rfl
